import Mathlib

/-!
Shallow embedding of the pyopenms-extra visualization widgets
(src/view/TICWidget.py and src/view/ErrorWidget.py).

Numeric values (retention times, intensities, m/z, ppm errors, pixel
widths) are modelled as rationals.  The embedded routines are:

* `find_Peak` — `TICWidget._find_Peak`, the peak finder.  The Python
  outer loop `for indx in range(0, len(data), 1)` visits every index even
  when the body assigns `indx = j`; the assignment only affects the rest
  of that iteration (the trailing `peakValue = data[indx]`).  The inner
  loop `for j in range(indx, len(data))` is `findDescent`.
* `getMaxMassErrorInRange` / `getMaxIntensityInRange` — the range
  reducers used for y-axis autoscaling.  `np.searchsorted` is modelled by
  its specification on sorted input: `side "left"` returns the number of
  elements strictly below the needle, `side "right"` the number of
  elements not above it.  `np.amax(-, initial=1)` is a left fold of `max`
  started at `1`.
* `effectiveXRange` — the `x_range == [0, 1]` workaround in both
  `_autoscaleYAxis` methods.
* `calculate_closest_datapoint` — `TICWidget._calculate_closest_datapoint`.
* `add_label` / `label_clashes` / `clear_labels` — the label collection
  of `TICWidget`.  A label's device bounding rectangle and anchor x are
  toolkit-supplied; rectangles are modelled as axis-aligned boxes with
  the usual open-overlap intersection test of the toolkit.
* `setTIC` / `checkExistTIC` — the data-set update sequence of
  `TICWidget`, tracked on the fields the update touches.
-/

namespace PyOpenMSViz

/-- `np.amin` of a nonempty list (head-seeded fold). -/
def npamin (xs : List ℚ) : ℚ := xs.foldl min (xs.headD 0)

/-- `np.amax` of a nonempty list (head-seeded fold). -/
def npamax (xs : List ℚ) : ℚ := xs.foldl max (xs.headD 0)

/-- `np.searchsorted(xs, v, side="left")` on sorted `xs`: number of
elements strictly less than `v`, i.e. the first insertion point. -/
def searchsortedLeft (xs : List ℚ) (v : ℚ) : Nat :=
  xs.countP (fun x => decide (x < v))

/-- `np.searchsorted(xs, v, side="right")` on sorted `xs`: number of
elements less than or equal to `v`, i.e. the last insertion point. -/
def searchsortedRight (xs : List ℚ) (v : ℚ) : Nat :=
  xs.countP (fun x => decide (x ≤ v))

/-- The Python slice `ys[a:b]`. -/
def sliceList (ys : List ℚ) (a b : Nat) : List ℚ := (ys.drop a).take (b - a)

/-- `ErrorWidget._getMaxMassErrorInRange`:
`np.amax(abs(ppm[left:right]), initial=1)` with the two searchsorted
boundaries taken on the m/z array. -/
def getMaxMassErrorInRange (mzs ppm : List ℚ) (lo hi : ℚ) : ℚ :=
  ((sliceList ppm (searchsortedLeft mzs lo) (searchsortedRight mzs hi)).map
    (fun y => |y|)).foldl max 1

/-- `TICWidget._getMaxIntensityInRange`:
`np.amax(ints[left:right], initial=1)` with the two searchsorted
boundaries taken on the retention-time array. -/
def getMaxIntensityInRange (rts ints : List ℚ) (lo hi : ℚ) : ℚ :=
  (sliceList ints (searchsortedLeft rts lo) (searchsortedRight rts hi)).foldl max 1

/-- The Range Reducer as the specification claims it behaves: maximum
absolute y-value among exactly the samples whose x falls in the
half-open window `[lo, hi)`, with floor value `1` when that slice is
empty.  Stated only to be compared against the source definition
`getMaxMassErrorInRange`. -/
def rangeReducerClaimed (mzs ppm : List ℚ) (lo hi : ℚ) : ℚ :=
  let ys := ((mzs.zip ppm).filter
      (fun p => decide (lo ≤ p.1) && decide (p.1 < hi))).map (fun p => |p.2|)
  if ys.isEmpty then 1 else ys.foldl max (ys.headD 0)

/-- The `x_range == [0, 1]` workaround shared by
`TICWidget._autoscaleYAxis` and `ErrorWidget._autoscaleYAxis`: when the
reported axis range is the toolkit default `[0, 1]`, the full data
extent is substituted; otherwise the reported range is used unchanged. -/
def effectiveXRange (reported : ℚ × ℚ) (xs : List ℚ) : ℚ × ℚ :=
  if reported = (0, 1) then (npamin xs, npamax xs) else reported

/-- The y-value computed by `TICWidget._autoscaleYAxis` for a reported
x-range: the maximum intensity over the effective window. -/
def autoscaleYTIC (rts ints : List ℚ) (reported : ℚ × ℚ) : ℚ :=
  let r := effectiveXRange reported rts
  getMaxIntensityInRange rts ints r.1 r.2

/-- The y-value computed by `ErrorWidget._autoscaleYAxis` for a reported
x-range: the maximum absolute ppm error over the effective window. -/
def autoscaleYError (mzs ppm : List ℚ) (reported : ℚ × ℚ) : ℚ :=
  let r := effectiveXRange reported mzs
  getMaxMassErrorInRange mzs ppm r.1 r.2

/-- `TICWidget._calculate_closest_datapoint`. -/
def calculate_closest_datapoint (rts : List ℚ) (px : ℚ) : Nat :=
  let larger0 := searchsortedLeft rts px
  let larger := if rts.length ≤ larger0 then larger0 - 1 else larger0
  let smaller := if 0 < larger then larger - 1 else 0
  if |rts.getD larger 0 - px| < |rts.getD smaller 0 - px| then larger
  else smaller

/-- Inner loop of `TICWidget._find_Peak` (`for j in range(indx, ...)`),
run on the suffix starting at the candidate: skips values equal to the
candidate value `pv`, stops with `none` on a strictly larger value or at
the end of the data, and returns `some` offset of the first strictly
smaller value. -/
def findDescent (pv : ℚ) : List ℚ → Option Nat
  | [] => none
  | x :: xs =>
    if pv < x then none
    else if pv = x then (findDescent pv xs).map (fun off => off + 1)
    else some 0

/-- The descent-confirmation event of `_find_Peak` expressed with
absolute indices: `confirmDescent data i = some j` when the inner scan
started at candidate index `i` first confirms a descent at index `j`. -/
def confirmDescent (data : List ℚ) (i : Nat) : Option Nat :=
  (findDescent (data.getD i 0) (data.drop i)).map (fun off => i + off)

/-- The index marked by `_find_Peak` when a candidate at `i` is confirmed
descending at `j`: `indx + np.floor(abs(indx - j) / 2)`. -/
def markedIndex (i j : Nat) : Nat := i + (j - i) / 2

/-- The running `peakValue` comparison; `none` is the initial `-np.inf`. -/
def pvLt : Option ℚ → ℚ → Bool
  | none, _ => true
  | some v, x => decide (v < x)

/-- Outer loop of `TICWidget._find_Peak`, walking the suffix `x :: rest`
of `data` that starts at absolute index `i`.  Returns the indices marked
in `maxIndices`, in the order they are marked (possibly with repeats,
matching repeated `maxIndices[peakIndex] = 1` writes). -/
def findPeakAux (data : List ℚ) : Nat → Option ℚ → List ℚ → List Nat
  | _, _, [] => []
  | i, pv, x :: rest =>
    if pvLt pv x then
      match findDescent x (x :: rest) with
      | some off =>
          markedIndex i (i + off) ::
            findPeakAux data (i + 1) (some (data.getD (i + off) 0)) rest
      | none => findPeakAux data (i + 1) (some x) rest
    else findPeakAux data (i + 1) (some x) rest

/-- `np.where(maxIndices)[0]`: the marked indices in ascending order,
without repeats. -/
def whereMarks (n : Nat) (marks : List Nat) : List Nat :=
  (List.range n).filter (fun k => marks.contains k)

/-- `TICWidget._find_Peak`: mark the peak indices, then
`sorted(maxIndices, key=lambda x: data[x], reverse=True)` — a stable
sort by descending intensity, which on the ascending index list is
insertion sort with the reflexive descending-value relation. -/
def find_Peak (data : List ℚ) : List Nat :=
  List.insertionSort (fun a b => data.getD b 0 ≤ data.getD a 0)
    (whereMarks data.length (findPeakAux data 0 none data))

/-- A device-space bounding rectangle of a rendered label, as supplied
by the toolkit (`mapRectToDevice(boundingRect())`). -/
structure Rect where
  x0 : ℚ
  y0 : ℚ
  x1 : ℚ
  y1 : ℚ
deriving DecidableEq

/-- The toolkit rectangle-intersection test: the two boxes share a
region of positive area. -/
def Rect.intersects (a b : Rect) : Bool :=
  decide (a.x0 < b.x1) && decide (b.x0 < a.x1) &&
    decide (a.y0 < b.y1) && decide (b.y0 < a.y1)

/-- One entry of `TICWidget._peak_labels`: the key and, from the stored
`pg.TextItem`, its anchor x-position and device bounding rectangle. -/
structure TICLabel where
  lid : Nat
  xpos : ℚ
  rect : Rect
deriving DecidableEq

/-- Body of the `for exist_label in list(self._peak_labels)` loop of
`TICWidget._label_clashes`, with the early exits on a detected clash.
`nl` is the newly added label, `limit` the scaled 20 pixel distance. -/
def clashLoop (nl : TICLabel) (limit : ℚ) : List TICLabel → Bool
  | [] => false
  | l :: rest =>
    if l.lid ≠ nl.lid then
      if Rect.intersects nl.rect l.rect then true
      else if |nl.xpos - l.xpos| < limit then true
      else clashLoop nl limit rest
    else clashLoop nl limit rest

/-- `TICWidget._label_clashes`.  The label collection is the dict in
insertion order; `pixelWidth` is `viewPixelSize()[0]`.  The method looks
the new label up by its key (total here via `find?`; in `_add_label` the
key has just been inserted). -/
def label_clashes (labels : List TICLabel) (pixelWidth : ℚ) (newId : Nat) : Bool :=
  if labels.isEmpty then false
  else
    match labels.find? (fun l => l.lid == newId) with
    | none => false
    | some nl => clashLoop nl (20 * pixelWidth) labels

/-- `TICWidget._remove_label`: delete the entry with the given key. -/
def remove_label (labels : List TICLabel) (i : Nat) : List TICLabel :=
  labels.filter (fun l => l.lid != i)

/-- `TICWidget._add_label`: render the label, insert it into the
collection, and remove it again when `_label_clashes` reports a clash. -/
def add_label (labels : List TICLabel) (pixelWidth : ℚ) (nl : TICLabel) :
    List TICLabel :=
  let labels2 := labels ++ [nl]
  if label_clashes labels2 pixelWidth nl.lid then remove_label labels2 nl.lid
  else labels2

/-- `TICWidget._clear_labels`: remove every label and reset the
collection to the empty dict. -/
def clear_labels (_labels : List TICLabel) : List TICLabel :=
  ([] : List TICLabel)

/-- The `TICWidget` fields touched by a `setTIC` update. -/
structure TICState where
  rts : List ℚ
  ints : List ℚ
  peakLabels : List TICLabel
  existTIC : Bool
  peakIndices : List Nat
deriving DecidableEq

/-- The field values set by `TICWidget.__init__`. -/
def initTICState : TICState :=
  { rts := [], ints := [], peakLabels := [], existTIC := true,
    peakIndices := [] }

/-- `TICWidget.checkExistTIC`: sets `_existTIC` to `False` when the
retention-time array is empty — and never resets it to `True`. -/
def checkExistTIC (s : TICState) : TICState :=
  if s.rts.length = 0 then { s with existTIC := false } else s

/-- `TICWidget._rts_in_min`: seconds to minutes. -/
def rts_in_min (rts : List ℚ) : List ℚ := rts.map (fun x => x / 60)

/-- `TICWidget._relative_ints`: scale by the maximum to percent. -/
def relative_ints (ints : List ℚ) : List ℚ :=
  let maxInt := npamax ints
  ints.map (fun x => x / maxInt * 100)

/-- `TICWidget.setTIC`: clear any existing labels, store the
chromatogram data, run `checkExistTIC`, and only when `_existTIC` is
still true convert units, recompute the peak indices and redraw (the
redraw rebuilds the labels from the new peak indices). -/
def setTIC (s : TICState) (chromRts chromInts : List ℚ) : TICState :=
  let s1 := if s.peakLabels ≠ [] then { s with peakLabels := [] } else s
  let s2 := { s1 with rts := chromRts, ints := chromInts }
  let s3 := checkExistTIC s2
  if s3.existTIC then
    let newRts := rts_in_min s3.rts
    let newInts := relative_ints s3.ints
    { s3 with
      rts := newRts
      ints := newInts
      peakIndices := find_Peak newInts }
  else s3

end PyOpenMSViz

namespace PyOpenMSViz

/-- Claim C5: on the input `[1, 5, 3, 5, 1]` the peak finder marks both
value-5 plateaus, indices 1 and 3, and the descending-intensity sort is
stable on the tie, so the result is `[1, 3]`. -/
theorem C5_twin_plateaus : find_Peak [1, 5, 3, 5, 1] = [1, 3] := by decide

/-- Claim C9: `clear_labels` empties the label collection
unconditionally, and a second consecutive call leaves it empty again. -/
theorem C9_clear_idempotent (labels : List TICLabel) :
    clear_labels labels = [] ∧ clear_labels (clear_labels labels) = [] :=
  ⟨rfl, rfl⟩

/-- Claim C7: when the reported x-range is the toolkit default `(0, 1)`
the effective window is the full data extent and the autoscale value is
taken over that extent; any other reported range is used unchanged. -/
theorem C7_default_range_substitution (rts ints : List ℚ) (reported : ℚ × ℚ)
    (h1 : reported = (0, 1)) (reported2 : ℚ × ℚ) (h2 : reported2 ≠ (0, 1)) :
    effectiveXRange reported rts = (npamin rts, npamax rts) ∧
    autoscaleYTIC rts ints reported =
      getMaxIntensityInRange rts ints (npamin rts) (npamax rts) ∧
    effectiveXRange reported2 rts = reported2 ∧
    autoscaleYTIC rts ints reported2 =
      getMaxIntensityInRange rts ints reported2.1 reported2.2 := by
  subst h1
  refine ⟨?_, ?_, ?_, ?_⟩ <;>
    simp [effectiveXRange, autoscaleYTIC, h2]

/-- Witness for C7 at a concrete reported range and data set. -/
theorem C7_witness :
    effectiveXRange (0, 1) [3, 1, 4] = (npamin [3, 1, 4], npamax [3, 1, 4]) ∧
    effectiveXRange (2, 5) [3, 1, 4] = ((2 : ℚ), (5 : ℚ)) :=
  ⟨(C7_default_range_substitution [3, 1, 4] [] (0, 1) rfl (2, 5) (by decide)).1,
   (C7_default_range_substitution [3, 1, 4] [] (0, 1) rfl (2, 5) (by decide)).2.2.1⟩

/-- Claim C1 counterexample: `[1, 2]` is strictly increasing, yet the
peak finder returns no peak at all — not the final index. -/
theorem C1_counterexample :
    List.Sorted (· < ·) [(1 : ℚ), 2] ∧ find_Peak [(1 : ℚ), 2] = [] ∧
      find_Peak [(1 : ℚ), 2] ≠ [1] := by decide

/-- Claim C2 counterexample: with `x = [0, 1]`, `y = [2, 7]` and window
`[0, 1]` the code includes the sample at `x = 1` (closed right boundary,
`side "right"`) and returns 7, while the claimed half-open semantics
would return 2. -/
theorem C2_counterexample :
    getMaxMassErrorInRange [0, 1] [2, 7] 0 1 = 7 ∧
      rangeReducerClaimed [0, 1] [2, 7] 0 1 = 2 := by decide

/-- Claim C6 counterexample: on `[1, 5, 5, 5, 2]` the single flat top of
value 5 is marked at the two distinct indices 2 and 3 (the outer scan
resumes at the next loop index, not after the confirmation point), so a
plateau does not collapse to a single representative index. -/
theorem C6_counterexample :
    find_Peak [(1 : ℚ), 5, 5, 5, 2] = [2, 3] ∧
      ([(1 : ℚ), 5, 5, 5, 2]).getD 2 0 = ([(1 : ℚ), 5, 5, 5, 2]).getD 3 0 := by
  decide

/-- Claim C4: the latch in `checkExistTIC` is never reset, so after an
update with an empty chromatogram a following non-empty update is not
rebuilt: `_existTIC` stays false, the peak indices stay stale and the
retention times are not even converted to minutes — while a direct
non-empty update on a fresh widget does rebuild. -/
theorem C4_stale_after_empty_update :
    (setTIC (setTIC initTICState [] []) [60, 120] [10, 20]).existTIC = false ∧
    (setTIC (setTIC initTICState [] []) [60, 120] [10, 20]).peakIndices = [] ∧
    (setTIC (setTIC initTICState [] []) [60, 120] [10, 20]).rts = [60, 120] ∧
    (setTIC initTICState [60, 120] [10, 20]).existTIC = true ∧
    (setTIC initTICState [60, 120] [10, 20]).rts = [1, 2] := by
  refine ⟨?_, ?_, ?_, ?_, ?_⟩ <;>
    norm_num [setTIC, checkExistTIC, initTICState, rts_in_min]

end PyOpenMSViz

namespace PyOpenMSViz

/-- On a strictly increasing suffix whose values all dominate the
candidate value, the inner scan runs into a strictly larger value (or
the end) before any strictly smaller one. -/
lemma findDescent_none_of_all_le (pv : ℚ) (l : List ℚ)
    (hmem : ∀ x ∈ l, pv ≤ x) (hp : l.Pairwise (· < ·)) :
    findDescent pv l = none := by
  induction l with
  | nil => rfl
  | cons x xs ih =>
    have hx : pv ≤ x := hmem x (List.mem_cons_self x xs)
    rcases List.pairwise_cons.mp hp with ⟨hxall, hxs⟩
    rcases lt_or_eq_of_le hx with h | h
    · simp [findDescent, h]
    · subst h
      simp [findDescent, lt_irrefl,
        ih (fun y hy => le_of_lt (hxall y hy)) hxs]

/-- The outer scan of a strictly increasing list marks nothing. -/
lemma findPeakAux_nil_of_pairwise_lt (data : List ℚ) (l : List ℚ)
    (hp : l.Pairwise (· < ·)) : ∀ i pv, findPeakAux data i pv l = [] := by
  induction l with
  | nil => intro i pv; rfl
  | cons x xs ih =>
    intro i pv
    rcases List.pairwise_cons.mp hp with ⟨hxall, hxs⟩
    have hdesc : findDescent x (x :: xs) = none := by
      refine findDescent_none_of_all_le x (x :: xs) ?_ hp
      intro y hy
      rcases List.mem_cons.mp hy with h | h
      · exact h ▸ le_rfl
      · exact le_of_lt (hxall y h)
    by_cases hlt : pvLt pv x = true
    · simp [findPeakAux, hlt, hdesc, ih hxs]
    · simp [findPeakAux, hlt, ih hxs]

/-- The outer scan marks nothing once the running peak value dominates
every remaining strictly decreasing value. -/
lemma findPeakAux_nil_of_le_pv (data : List ℚ) (l : List ℚ) :
    l.Pairwise (· > ·) → ∀ i pv, (∀ x ∈ l, x ≤ pv) →
      findPeakAux data i (some pv) l = [] := by
  induction l with
  | nil => intro _ i pv _; rfl
  | cons x xs ih =>
    intro hp i pv hle
    rcases List.pairwise_cons.mp hp with ⟨hxall, hxs⟩
    have hx : x ≤ pv := hle x (List.mem_cons_self x xs)
    have hlt : pvLt (some pv) x = false := by
      simp only [pvLt, decide_eq_false_iff_not, not_lt]
      exact hx
    simp [findPeakAux, hlt, ih hxs (i + 1) x (fun y hy => le_of_lt (hxall y hy))]

/-- The inner scan of an all-equal suffix never confirms a descent. -/
lemma findDescent_none_of_all_eq (c : ℚ) (l : List ℚ)
    (h : ∀ x ∈ l, x = c) : findDescent c l = none := by
  induction l with
  | nil => rfl
  | cons x xs ih =>
    have hx : x = c := h x (List.mem_cons_self x xs)
    subst hx
    simp [findDescent, lt_irrefl,
      ih (fun y hy => h y (List.mem_cons_of_mem x hy))]

/-- The outer scan of an all-equal suffix marks nothing once the running
peak value equals the constant. -/
lemma findPeakAux_nil_of_all_eq (data : List ℚ) (c : ℚ) (l : List ℚ)
    (h : ∀ x ∈ l, x = c) : ∀ i, findPeakAux data i (some c) l = [] := by
  induction l with
  | nil => intro i; rfl
  | cons x xs ih =>
    intro i
    have hx : x = c := h x (List.mem_cons_self x xs)
    have hlt : pvLt (some c) x = false := by
      simp only [pvLt, decide_eq_false_iff_not, not_lt, hx]
      exact le_rfl
    rw [findPeakAux, hlt]
    simp only [Bool.false_eq_true, if_false, hx]
    exact ih (fun y hy => h y (List.mem_cons_of_mem x hy)) (i + 1)

/-- A mark list that is empty selects nothing. -/
lemma whereMarks_nil (n : Nat) : whereMarks n [] = [] := by
  unfold whereMarks
  induction List.range n with
  | nil => rfl
  | cons a l ih => simp [List.filter_cons, ih]

/-- The mark list `[0]` selects exactly index 0. -/
lemma whereMarks_single_zero (n : Nat) (hn : 0 < n) : whereMarks n [0] = [0] := by
  induction n with
  | zero => exact absurd hn (by omega)
  | succ m ih =>
    rcases Nat.eq_zero_or_pos m with hm | hm
    · subst hm; rfl
    · have hm0 : ¬(m = 0) := by omega
      have hbeq : (m == 0) = false := by simp [hm0]
      unfold whereMarks at ih ⊢
      rw [List.range_succ, List.filter_append, ih hm]
      simp [List.filter_cons, List.contains, List.elem, hbeq]

end PyOpenMSViz

namespace PyOpenMSViz

/-- A strictly increasing input yields no peak: the scan never confirms
a descent before the end of the data. -/
lemma find_Peak_strict_inc (l : List ℚ) (hp : l.Pairwise (· < ·)) :
    find_Peak l = [] := by
  unfold find_Peak
  rw [findPeakAux_nil_of_pairwise_lt l l hp 0 none, whereMarks_nil]
  rfl

/-- A strictly decreasing input of length at least 2 yields exactly the
first index as its sole peak. -/
lemma find_Peak_strict_dec (l : List ℚ) (hp : l.Pairwise (· > ·))
    (hlen : 2 ≤ l.length) : find_Peak l = [0] := by
  rcases l with _ | ⟨a, _ | ⟨b, rest⟩⟩
  · simp at hlen
  · simp at hlen
  · rcases List.pairwise_cons.mp hp with ⟨haall, hp2⟩
    rcases List.pairwise_cons.mp hp2 with ⟨hball, hp3⟩
    have hab : a > b := haall b (List.mem_cons_self b rest)
    have hdesc : findDescent a (a :: b :: rest) = some 1 := by
      rw [findDescent, if_neg (lt_irrefl a), if_pos rfl]
      rw [findDescent, if_neg (not_lt.mpr hab.le), if_neg hab.ne']
      rfl
    have htail : findPeakAux (a :: b :: rest) (0 + 1) (some b) (b :: rest) = [] := by
      refine findPeakAux_nil_of_le_pv (a :: b :: rest) (b :: rest) hp2 (0 + 1) b ?_
      intro x hx
      rcases List.mem_cons.mp hx with h | h
      · exact h ▸ le_rfl
      · exact le_of_lt (hball x h)
    have hpv : pvLt none a = true := rfl
    have h1 : findPeakAux (a :: b :: rest) 0 none (a :: b :: rest) =
        markedIndex 0 (0 + 1) ::
          findPeakAux (a :: b :: rest) (0 + 1)
            (some ((a :: b :: rest).getD (0 + 1) 0)) (b :: rest) := by
      rw [findPeakAux, hpv, if_pos rfl, hdesc]
    have hget : (a :: b :: rest).getD (0 + 1) 0 = b := rfl
    have hmarks : findPeakAux (a :: b :: rest) 0 none (a :: b :: rest) = [0] := by
      rw [h1, hget, htail]
      rfl
    unfold find_Peak
    rw [hmarks, whereMarks_single_zero _ (by simp)]
    rfl

/-- Claim C1 (amended): the empty input yields zero peaks; a strictly
increasing input yields zero peaks, because the end of the data never
confirms a descent (the claim expected the final index); a strictly
decreasing input with at least two samples yields exactly one peak, the
first index. -/
theorem C1_monotone_sequences (inc : List ℚ) (hinc : inc.Sorted (· < ·))
    (dec : List ℚ) (hdec : dec.Sorted (· > ·)) (hlen : 2 ≤ dec.length) :
    find_Peak ([] : List ℚ) = [] ∧ find_Peak inc = [] ∧ find_Peak dec = [0] :=
  ⟨rfl, find_Peak_strict_inc inc hinc, find_Peak_strict_dec dec hdec hlen⟩

/-- Witness for C1 on concrete monotone inputs. -/
theorem C1_witness :
    find_Peak ([] : List ℚ) = [] ∧ find_Peak [(1 : ℚ), 2, 3] = [] ∧
      find_Peak [(3 : ℚ), 2, 1] = [0] :=
  C1_monotone_sequences [1, 2, 3] (by decide) [3, 2, 1] (by decide) (by decide)

/-- Claim C10: a non-empty constant input yields no peak — equality
never counts as a descent, so no index is ever marked. -/
theorem C10_constant_sequence (n : Nat) (c : ℚ) (hn : 0 < n) :
    find_Peak (List.replicate n c) = [] := by
  rcases n with _ | m
  · exact absurd hn (by omega)
  · have hall : ∀ x ∈ c :: List.replicate m c, x = c := by
      intro x hx
      rcases List.mem_cons.mp hx with h | h
      · exact h
      · exact List.eq_of_mem_replicate h
    have hrep : List.replicate (m + 1) c = c :: List.replicate m c :=
      List.replicate_succ c m
    unfold find_Peak
    rw [hrep]
    have hmarks :
        findPeakAux (c :: List.replicate m c) 0 none (c :: List.replicate m c)
          = [] := by
      rw [findPeakAux]
      have hpv : pvLt none c = true := rfl
      rw [hpv, if_pos rfl, findDescent_none_of_all_eq c _ hall]
      exact findPeakAux_nil_of_all_eq _ c _
        (fun y hy => List.eq_of_mem_replicate hy) 1
    rw [hmarks, whereMarks_nil]
    rfl

/-- Witness for C10 on a concrete constant input. -/
theorem C10_witness : find_Peak (List.replicate 3 (5 : ℚ)) = [] :=
  C10_constant_sequence 3 5 (by decide)

end PyOpenMSViz

namespace PyOpenMSViz

/-- `getD` of a dropped prefix reads at the shifted index. -/
lemma getD_drop (l : List ℚ) : ∀ i k, (l.drop i).getD k 0 = l.getD (i + k) 0 := by
  induction l with
  | nil => intro i k; simp
  | cons x xs ih =>
    intro i k
    cases i with
    | zero => simp
    | succ m => simp [Nat.succ_add, ih m k]

/-- Characterization of a confirmed descent of the inner scan: the
returned offset points at the first strictly smaller value, every value
before it equals the candidate value, and no strictly larger value was
met. -/
lemma findDescent_some_spec (pv : ℚ) (l : List ℚ) :
    ∀ off, findDescent pv l = some off →
      off < l.length ∧ l.getD off 0 < pv ∧ ∀ k, k < off → l.getD k 0 = pv := by
  induction l with
  | nil => intro off h; simp [findDescent] at h
  | cons x xs ih =>
    intro off h
    rw [findDescent] at h
    by_cases h1 : pv < x
    · rw [if_pos h1] at h; exact absurd h (by simp)
    · rw [if_neg h1] at h
      by_cases h2 : pv = x
      · rw [if_pos h2] at h
        rcases Option.map_eq_some'.mp h with ⟨o, ho, hoff⟩
        rcases ih o ho with ⟨holen, hoval, hoeq⟩
        subst hoff
        refine ⟨by simpa using Nat.succ_lt_succ holen, by simpa using hoval, ?_⟩
        intro k hk
        cases k with
        | zero => simpa using h2.symm
        | succ k2 =>
          have : k2 < o := by omega
          simpa using hoeq k2 this
      · rw [if_neg h2] at h
        have hoff : off = 0 := by simpa using h.symm
        subst hoff
        have hxlt : x < pv := lt_of_le_of_ne (not_lt.mp h1) (fun he => h2 he.symm)
        exact ⟨by simp, by simpa using hxlt, fun k hk => absurd hk (by omega)⟩

/-- Claim C6 (amended, midpoint part): when the scan for the candidate
at index `i` is first confirmed descending at index `j`, then `i < j`,
`j` is in bounds, the value at `j` is strictly below the candidate
value, every value from `i` up to `j` (exclusive) equals the candidate
value (the plateau), and the marked peak index is `i + (j - i) / 2`
with integer floor division.  (The other half of the claim — exactly
one marked index per plateau — fails; see the counterexample.) -/
theorem C6_confirmed_descent (data : List ℚ) (i j : Nat)
    (h : confirmDescent data i = some j) :
    (i < j ∧ j < data.length ∧ data.getD j 0 < data.getD i 0 ∧
      ((List.range (j - i)).all fun k =>
        data.getD (i + k) 0 == data.getD i 0) = true) ∧
    markedIndex i j = i + (j - i) / 2 := by
  rcases Option.map_eq_some'.mp h with ⟨off, hoff, hj⟩
  rcases findDescent_some_spec _ _ off hoff with ⟨hlen, hval, heq⟩
  rw [List.length_drop] at hlen
  have hoffpos : 0 < off := by
    rcases Nat.eq_zero_or_pos off with h0 | h0
    · subst h0
      rw [getD_drop] at hval
      simp at hval
    · exact h0
  have hij : i < j := by omega
  have hjlen : j < data.length := by omega
  refine ⟨⟨hij, hjlen, ?_, ?_⟩, rfl⟩
  · rw [getD_drop] at hval
    rw [hj] at hval
    exact hval
  · rw [List.all_eq_true]
    intro k hk
    rw [List.mem_range] at hk
    have hk2 : k < off := by omega
    have := heq k hk2
    rw [getD_drop] at this
    simpa using this

/-- Witness for C6 at the concrete input `[5, 3]`, candidate index 0,
descent confirmed at index 1. -/
theorem C6_witness :
    ((0 < 1 ∧ 1 < ([(5 : ℚ), 3]).length ∧
        ([(5 : ℚ), 3]).getD 1 0 < ([(5 : ℚ), 3]).getD 0 0 ∧
        ((List.range (1 - 0)).all fun k =>
          ([(5 : ℚ), 3]).getD (0 + k) 0 == ([(5 : ℚ), 3]).getD 0 0) = true) ∧
      markedIndex 0 1 = 0 + (1 - 0) / 2) :=
  C6_confirmed_descent [5, 3] 0 1 (by decide)

end PyOpenMSViz

namespace PyOpenMSViz

/-- The closest-datapoint search returns an in-bounds index on any
non-empty data set: the raw search index is at most the length, the
overflow branch subtracts one, and both candidate indices stay below the
length. -/
lemma closest_lt_length (rts : List ℚ) (px : ℚ) (h : 0 < rts.length) :
    calculate_closest_datapoint rts px < rts.length := by
  have h0 : searchsortedLeft rts px ≤ rts.length := List.countP_le_length _
  simp only [calculate_closest_datapoint]
  split_ifs <;> omega

/-- On strictly ascending data, a click beyond the last sample resolves
to the last index: the clamped candidate wins the distance comparison
against its left neighbour. -/
lemma closest_beyond_last (srts : List ℚ) (spx : ℚ) (hs : srts.Sorted (· < ·))
    (hne : srts ≠ []) (hbig : ∀ r ∈ srts, r < spx) :
    calculate_closest_datapoint srts spx = srts.length - 1 := by
  have hlen : 0 < srts.length := List.length_pos.mpr hne
  have hall : searchsortedLeft srts spx = srts.length := by
    unfold searchsortedLeft
    rw [List.countP_eq_length]
    intro a ha
    simpa using hbig a ha
  simp only [calculate_closest_datapoint, hall]
  rw [if_pos le_rfl]
  rcases Nat.lt_or_ge 1 srts.length with h2 | h2
  · have hsm : 0 < srts.length - 1 := by omega
    rw [if_pos hsm]
    have hj : srts.length - 1 < srts.length := by omega
    have hi : srts.length - 1 - 1 < srts.length := by omega
    have hij : srts.length - 1 - 1 < srts.length - 1 := by omega
    have ha : srts.getD (srts.length - 1 - 1) 0 < srts.getD (srts.length - 1) 0 := by
      rw [List.getD_eq_getElem _ _ hi, List.getD_eq_getElem _ _ hj]
      exact (List.pairwise_iff_getElem.mp hs) _ _ hi hj hij
    have hb : srts.getD (srts.length - 1) 0 < spx := by
      rw [List.getD_eq_getElem _ _ hj]
      exact hbig _ (List.getElem_mem hj)
    have hc : srts.getD (srts.length - 1 - 1) 0 < spx := by
      rw [List.getD_eq_getElem _ _ hi]
      exact hbig _ (List.getElem_mem hi)
    have habs : |srts.getD (srts.length - 1) 0 - spx| <
        |srts.getD (srts.length - 1 - 1) 0 - spx| := by
      rw [abs_of_neg (by linarith), abs_of_neg (by linarith)]
      linarith
    rw [if_pos habs]
  · have h1 : srts.length = 1 := by omega
    have hz : srts.length - 1 = 0 := by omega
    have hsm : ¬(0 < srts.length - 1) := by omega
    rw [if_neg hsm, hz]
    rw [if_neg (lt_irrefl _)]

/-- Claim C8: for every non-empty sample sequence and every clicked
x-coordinate the closest-datapoint search returns an index inside the
bounds, and on strictly ascending data a click beyond the last sample
resolves to the last valid index rather than running out of bounds. -/
theorem C8_closest_datapoint_safe (rts : List ℚ) (px : ℚ) (hne : rts ≠ [])
    (srts : List ℚ) (spx : ℚ) (hs : srts.Sorted (· < ·)) (hsne : srts ≠ [])
    (hbeyond : ∀ r ∈ srts, r < spx) :
    calculate_closest_datapoint rts px < rts.length ∧
    calculate_closest_datapoint srts spx = srts.length - 1 :=
  ⟨closest_lt_length rts px (List.length_pos.mpr hne),
   closest_beyond_last srts spx hs hsne hbeyond⟩

/-- Witness for C8 on `[1, 2]` with a click at 10, beyond the last
sample. -/
theorem C8_witness :
    calculate_closest_datapoint [(1 : ℚ), 2] 10 < ([(1 : ℚ), 2]).length ∧
      calculate_closest_datapoint [(1 : ℚ), 2] 10 = ([(1 : ℚ), 2]).length - 1 :=
  C8_closest_datapoint_safe [1, 2] 10 (by decide) [1, 2] 10 (by decide)
    (by decide) (by decide)

end PyOpenMSViz

namespace PyOpenMSViz

/-- On sorted data whose values all dominate `lo`, taking the
`searchsortedRight` count is exactly the filter by the closed window. -/
lemma take_countP_eq_filter (lo hi : ℚ) :
    ∀ (xs ys : List ℚ), xs.Sorted (· ≤ ·) → (∀ z ∈ xs, lo ≤ z) →
      ys.take (xs.countP (fun z => decide (z ≤ hi))) =
        ((xs.zip ys).filter
          (fun p => decide (lo ≤ p.1) && decide (p.1 ≤ hi))).map Prod.snd := by
  intro xs
  induction xs with
  | nil => intro ys _ _; simp
  | cons x xs ih =>
    intro ys hsort hlo
    rcases ys with _ | ⟨y, ys⟩
    · simp
    · have hx_all : ∀ z ∈ xs, x ≤ z := (List.sorted_cons.mp hsort).1
      have hsort2 : xs.Sorted (· ≤ ·) := (List.sorted_cons.mp hsort).2
      by_cases hxhi : x ≤ hi
      · have hkeep1 : lo ≤ x := hlo x (List.mem_cons_self x xs)
        rw [List.countP_cons_of_pos _ _ (by simpa using hxhi),
          List.take_succ_cons, List.zip_cons_cons]
        simp only [List.filter_cons]
        rw [if_pos (by simp [hkeep1, hxhi]), List.map_cons]
        exact congrArg (List.cons y)
          (ih ys hsort2 (fun z hz => hlo z (List.mem_cons_of_mem x hz)))
      · have hhix : hi < x := not_le.mp hxhi
        have hcnt : (x :: xs).countP (fun z => decide (z ≤ hi)) = 0 := by
          rw [List.countP_eq_zero]
          intro z hz
          rcases List.mem_cons.mp hz with h | h
          · subst h; simpa using hxhi
          · simpa using not_le.mpr (lt_of_lt_of_le hhix (hx_all z h))
        rw [hcnt, List.take_zero]
        symm
        rw [List.map_eq_nil_iff, List.filter_eq_nil_iff]
        intro p hp
        have hp1 : p.1 ∈ x :: xs := (List.of_mem_zip hp).1
        have hphi : hi < p.1 := by
          rcases List.mem_cons.mp hp1 with h | h
          · rw [h]; exact hhix
          · exact lt_of_lt_of_le hhix (hx_all _ h)
        simp [not_le.mpr hphi]

/-- The searchsorted slice of the y-array equals the filter of the
zipped samples by the closed window `[lo, hi]`, for sorted x-data. -/
lemma slice_eq_filter (lo hi : ℚ) :
    ∀ (mzs ppm : List ℚ), mzs.Sorted (· ≤ ·) →
      sliceList ppm (searchsortedLeft mzs lo) (searchsortedRight mzs hi) =
        ((mzs.zip ppm).filter
          (fun p => decide (lo ≤ p.1) && decide (p.1 ≤ hi))).map Prod.snd := by
  rcases le_or_lt lo hi with hlh | hlh
  · intro mzs
    induction mzs with
    | nil => intro ppm _; simp [sliceList, searchsortedLeft, searchsortedRight]
    | cons x xs ih =>
      intro ppm hsort
      have hx_all : ∀ z ∈ xs, x ≤ z := (List.sorted_cons.mp hsort).1
      have hsort2 : xs.Sorted (· ≤ ·) := (List.sorted_cons.mp hsort).2
      rcases ppm with _ | ⟨y, ys⟩
      · simp [sliceList]
      · by_cases hxlo : x < lo
        · have hxhi : x ≤ hi := le_trans (le_of_lt hxlo) hlh
          unfold searchsortedLeft searchsortedRight sliceList at ih ⊢
          rw [List.countP_cons_of_pos (fun z => decide (z < lo)) _
              (by simpa using hxlo),
            List.countP_cons_of_pos (fun z => decide (z ≤ hi)) _
              (by simpa using hxhi)]
          rw [List.drop_succ_cons, Nat.succ_sub_succ, List.zip_cons_cons]
          simp only [List.filter_cons]
          rw [if_neg (by simp [not_le.mpr hxlo])]
          exact ih ys hsort2
        · have hlox : lo ≤ x := not_lt.mp hxlo
          have hleft : searchsortedLeft (x :: xs) lo = 0 := by
            unfold searchsortedLeft
            rw [List.countP_eq_zero]
            intro z hz
            rcases List.mem_cons.mp hz with h | h
            · subst h; simpa using hxlo
            · simpa using not_lt.mpr (le_trans hlox (hx_all z h))
          rw [hleft]
          unfold sliceList
          rw [List.drop_zero, Nat.sub_zero]
          exact take_countP_eq_filter lo hi (x :: xs) (y :: ys) hsort
            (fun z hz => by
              rcases List.mem_cons.mp hz with h | h
              · rw [h]; exact hlox
              · exact le_trans hlox (hx_all z h))
  · intro mzs ppm _
    have hright : searchsortedRight mzs hi ≤ searchsortedLeft mzs lo := by
      unfold searchsortedLeft searchsortedRight
      refine List.countP_mono_left ?_
      intro a _ ha
      simp only [decide_eq_true_eq] at ha ⊢
      exact lt_of_le_of_lt ha hlh
    have hslice :
        sliceList ppm (searchsortedLeft mzs lo) (searchsortedRight mzs hi)
          = [] := by
      unfold sliceList
      rw [Nat.sub_eq_zero_of_le hright, List.take_zero]
    rw [hslice]
    symm
    rw [List.map_eq_nil_iff, List.filter_eq_nil_iff]
    intro p _
    intro hsat
    rw [Bool.and_eq_true, decide_eq_true_eq, decide_eq_true_eq] at hsat
    exact absurd (le_trans hsat.1 hsat.2) (not_le.mpr hlh)

end PyOpenMSViz

namespace PyOpenMSViz

/-- Claim C2 (amended): for sorted ascending x-data the Range Reducer
returns the fold of `max` seeded at the floor value 1 over the absolute
y-values (plain y-values for the intensity plot) of exactly the samples
whose x falls in the closed window `[lo, hi]` — both searchsorted
boundaries are inclusive, and the floor 1 applies to every result, not
only to an empty slice; on the spec example the result is 7. -/
theorem C2_range_reducer (mzs ppm ints : List ℚ) (lo hi : ℚ)
    (hs : mzs.Sorted (· ≤ ·)) :
    getMaxMassErrorInRange mzs ppm lo hi =
      (((mzs.zip ppm).filter
        (fun p => decide (lo ≤ p.1) && decide (p.1 ≤ hi))).map
          (fun p => |p.2|)).foldl max 1 ∧
    getMaxIntensityInRange mzs ints lo hi =
      (((mzs.zip ints).filter
        (fun p => decide (lo ≤ p.1) && decide (p.1 ≤ hi))).map
          Prod.snd).foldl max 1 ∧
    getMaxMassErrorInRange [0, 1, 2, 3, 4] [2, -7, 3, -1, 5] 1 3 = 7 := by
  refine ⟨?_, ?_, by decide⟩
  · unfold getMaxMassErrorInRange
    rw [slice_eq_filter lo hi mzs ppm hs, List.map_map]
    rfl
  · unfold getMaxIntensityInRange
    rw [slice_eq_filter lo hi mzs ints hs]

/-- Witness for C2 at `x = [0, 1]`, `y = [2, 7]`, window `[0, 1]`. -/
theorem C2_witness :
    getMaxMassErrorInRange [0, 1] [2, 7] 0 1 =
      (((([(0 : ℚ), 1]).zip [(2 : ℚ), 7]).filter
        (fun p => decide ((0 : ℚ) ≤ p.1) && decide (p.1 ≤ (1 : ℚ)))).map
          (fun p => |p.2|)).foldl max 1 :=
  (C2_range_reducer [0, 1] [2, 7] [] 0 1 (by decide)).1

end PyOpenMSViz

namespace PyOpenMSViz

/-- The clash loop reports a clash exactly when some label with a
different key either intersects the new label's rectangle or, failing
that, sits within the distance threshold. -/
lemma clashLoop_eq_true_iff (nl : TICLabel) (lim : ℚ) :
    ∀ ls : List TICLabel, clashLoop nl lim ls = true ↔
      ∃ l ∈ ls, l.lid ≠ nl.lid ∧
        (Rect.intersects nl.rect l.rect = true ∨
          (Rect.intersects nl.rect l.rect = false ∧
            |nl.xpos - l.xpos| < lim)) := by
  intro ls
  induction ls with
  | nil => simp [clashLoop]
  | cons l rest ih =>
    by_cases hid : l.lid ≠ nl.lid
    · by_cases hint : Rect.intersects nl.rect l.rect = true
      · simp only [clashLoop, if_pos hid, hint, if_pos rfl]
        constructor
        · intro _
          exact ⟨l, List.mem_cons_self l rest, hid, Or.inl hint⟩
        · intro _
          trivial
      · have hint2 : Rect.intersects nl.rect l.rect = false :=
          Bool.eq_false_iff.mpr hint
        by_cases hdist : |nl.xpos - l.xpos| < lim
        · simp only [clashLoop, if_pos hid, hint2, Bool.false_eq_true,
            if_false, if_pos hdist]
          constructor
          · intro _
            exact ⟨l, List.mem_cons_self l rest, hid, Or.inr ⟨hint2, hdist⟩⟩
          · intro _
            trivial
        · simp only [clashLoop, if_pos hid, hint2, Bool.false_eq_true,
            if_false, if_neg hdist]
          rw [ih]
          constructor
          · rintro ⟨l2, h2, h3⟩
            exact ⟨l2, List.mem_cons_of_mem l h2, h3⟩
          · rintro ⟨l2, h2, hne2, hprop⟩
            rcases List.mem_cons.mp h2 with h | h
            · subst h
              rcases hprop with hI | ⟨_hIF, hD⟩
              · exact absurd hI (by simp [hint2])
              · exact absurd hD hdist
            · exact ⟨l2, h, hne2, hprop⟩
    · simp only [clashLoop, if_neg hid]
      rw [ih]
      have hideq : l.lid = nl.lid := not_not.mp (fun h => hid h)
      constructor
      · rintro ⟨l2, h2, h3⟩
        exact ⟨l2, List.mem_cons_of_mem l h2, h3⟩
      · rintro ⟨l2, h2, hne2, hprop⟩
        rcases List.mem_cons.mp h2 with h | h
        · subst h
          exact absurd hideq hne2
        · exact ⟨l2, h, hne2, hprop⟩

/-- Looking the fresh key up in the appended collection returns the new
label. -/
lemma find?_append_self (ls : List TICLabel) (nl : TICLabel)
    (h : ∀ l ∈ ls, l.lid ≠ nl.lid) :
    (ls ++ [nl]).find? (fun l => l.lid == nl.lid) = some nl := by
  induction ls with
  | nil => simp [List.find?]
  | cons l rest ih =>
    have hl : (l.lid == nl.lid) = false := by
      simpa using h l (List.mem_cons_self l rest)
    simp [List.find?, hl, ih (fun x hx => h x (List.mem_cons_of_mem l hx))]

/-- The clash loop skips the new label itself at the end of the
collection. -/
lemma clashLoop_append_self (nl : TICLabel) (lim : ℚ) :
    ∀ ls : List TICLabel, clashLoop nl lim (ls ++ [nl]) = clashLoop nl lim ls := by
  intro ls
  induction ls with
  | nil => simp [clashLoop]
  | cons l rest ih =>
    by_cases hid : l.lid ≠ nl.lid
    · simp only [List.cons_append, clashLoop, if_pos hid, List.append_eq, ih]
    · simp only [List.cons_append, clashLoop, if_neg hid, List.append_eq, ih]

/-- `_label_clashes` after inserting a fresh-keyed label runs the clash
loop of that label over the previously existing labels. -/
lemma label_clashes_append (ls : List TICLabel) (pw : ℚ) (nl : TICLabel)
    (h : ∀ l ∈ ls, l.lid ≠ nl.lid) :
    label_clashes (ls ++ [nl]) pw nl.lid = clashLoop nl (20 * pw) ls := by
  have hne : (ls ++ [nl]).isEmpty = false := by
    cases ls <;> rfl
  simp only [label_clashes, hne, Bool.false_eq_true, if_false,
    find?_append_self ls nl h]
  exact clashLoop_append_self nl (20 * pw) ls

/-- Removing the fresh key from the appended collection restores the
previous collection. -/
lemma remove_label_append (ls : List TICLabel) (nl : TICLabel)
    (h : ∀ l ∈ ls, l.lid ≠ nl.lid) :
    remove_label (ls ++ [nl]) nl.lid = ls := by
  unfold remove_label
  rw [List.filter_append]
  have h1 : ls.filter (fun l => l.lid != nl.lid) = ls := by
    rw [List.filter_eq_self]
    intro a ha
    simpa using h a ha
  have h2 : ([nl]).filter (fun l => l.lid != nl.lid) = [] := by simp
  rw [h1, h2, List.append_nil]

/-- Claim C3: a newly added label with a fresh key collides with the
existing collection exactly when some existing label's rectangle
intersects it or, when the rectangles do not intersect, the anchor
x-distance is below 20 pixels scaled by the pixel width; and `add_label`
retains a colliding candidate never — it removes it within the same
call — while a non-colliding candidate is appended. -/
theorem C3_add_label_collision (labels : List TICLabel) (pw : ℚ)
    (nl : TICLabel) (hfresh : ∀ l ∈ labels, l.lid ≠ nl.lid) :
    (label_clashes (labels ++ [nl]) pw nl.lid = true ↔
      ∃ l ∈ labels, Rect.intersects nl.rect l.rect = true ∨
        (Rect.intersects nl.rect l.rect = false ∧
          |nl.xpos - l.xpos| < 20 * pw)) ∧
    (label_clashes (labels ++ [nl]) pw nl.lid = true →
      add_label labels pw nl = labels) ∧
    (label_clashes (labels ++ [nl]) pw nl.lid = false →
      add_label labels pw nl = labels ++ [nl]) := by
  have hlc := label_clashes_append labels pw nl hfresh
  refine ⟨?_, ?_, ?_⟩
  · rw [hlc, clashLoop_eq_true_iff]
    constructor
    · rintro ⟨l, hmem, _hid, hP⟩
      exact ⟨l, hmem, hP⟩
    · rintro ⟨l, hmem, hP⟩
      exact ⟨l, hmem, hfresh l hmem, hP⟩
  · intro htrue
    simp only [add_label]
    rw [if_pos htrue]
    exact remove_label_append labels nl hfresh
  · intro hfalse
    simp only [add_label]
    rw [if_neg (by simp [hfalse])]

end PyOpenMSViz

namespace PyOpenMSViz

/-- Witness for C3: a label 100 pixels away (rectangles disjoint, pixel
width 1) does not collide and is retained by `add_label`. -/
theorem C3_witness :
    add_label [⟨0, 0, ⟨0, 0, 1, 1⟩⟩] 1 ⟨1, 100, ⟨100, 0, 101, 1⟩⟩ =
      [⟨0, 0, ⟨0, 0, 1, 1⟩⟩, ⟨1, 100, ⟨100, 0, 101, 1⟩⟩] :=
  (C3_add_label_collision [⟨0, 0, ⟨0, 0, 1, 1⟩⟩] 1 ⟨1, 100, ⟨100, 0, 101, 1⟩⟩
      (by decide)).2.2
    (by
      rw [label_clashes_append [⟨0, 0, ⟨0, 0, 1, 1⟩⟩] 1
        ⟨1, 100, ⟨100, 0, 101, 1⟩⟩ (by decide)]
      norm_num [clashLoop, Rect.intersects])

end PyOpenMSViz
